import Mathlib

/-!
Verification of the duotone pixel mapper of `src/App.tsx`
(`applyDuotoneFilter`, lines 91-115).

The per-pixel arithmetic of the source is floating point; we embed it with
real-number arithmetic, which is the idealisation the design document itself
uses when it documents the exact formulas.  Byte stores into the canvas
buffer go through a `Uint8ClampedArray`, whose conversion clamps to
`[0, 255]` and rounds to the nearest integer with ties to even; that
conversion is embedded faithfully by `clampToByte` below.
-/

namespace Duotone

/-- An RGB colour, as the record literals `{ r: 27, g: 96, b: 47 }` of the
source. -/
structure Color where
  r : ℕ
  g : ℕ
  b : ℕ
deriving DecidableEq

/-- `const darkColor = { r: 27, g: 96, b: 47 }` (App.tsx line 95). -/
def darkColor : Color := ⟨27, 96, 47⟩

/-- `const lightColor = { r: 247, g: 132, b: 197 }` (App.tsx line 96). -/
def lightColor : Color := ⟨247, 132, 197⟩

/-- `const gray = 0.299 * r + 0.587 * g + 0.114 * b` (App.tsx line 103). -/
noncomputable def gray (r g b : ℝ) : ℝ := 0.299 * r + 0.587 * g + 0.114 * b

/-- `const gamma = 0.9` (App.tsx line 106). -/
noncomputable def gamma : ℝ := 0.9

/-- `const correctedGray = 255 * Math.pow(gray / 255, 1 / gamma)`
(App.tsx line 107); the power is a real power (`Real.rpow`). -/
noncomputable def correctedGray (gy : ℝ) : ℝ :=
  255 * (gy / 255) ^ ((1 : ℝ) / gamma)

/-- `const normalizedGray = correctedGray / 255` (App.tsx line 108). -/
noncomputable def normalizedGray (gy : ℝ) : ℝ := correctedGray gy / 255

/-- Rounding to the nearest integer with ties to even, the rounding mode of
the WebIDL conversion behind `Uint8ClampedArray` element assignment. -/
noncomputable def roundTiesToEven (x : ℝ) : ℤ :=
  if Int.fract x < 1 / 2 then ⌊x⌋
  else if 1 / 2 < Int.fract x then ⌊x⌋ + 1
  else if 2 ∣ ⌊x⌋ then ⌊x⌋ else ⌊x⌋ + 1

/-- The full `Uint8ClampedArray` store conversion: clamp to `[0, 255]`,
otherwise round to the nearest integer with ties to even.  Every write
`data[i] = e` of the source (App.tsx lines 110-112) goes through it. -/
noncomputable def clampToByte (x : ℝ) : ℕ :=
  if x ≤ 0 then 0
  else if 255 ≤ x then 255
  else (roundTiesToEven x).toNat

/-- One interpolated channel,
`darkChannel + (lightChannel - darkChannel) * normalizedGray`
(App.tsx lines 110-112, before the clamped byte store). -/
noncomputable def interpChannel (dc lc : ℕ) (t : ℝ) : ℝ :=
  (dc : ℝ) + ((lc : ℝ) - (dc : ℝ)) * t

/-- The transform the loop body applies to one RGBA pixel group: the new
R, G, B bytes computed from the old `r`, `g`, `b` (App.tsx lines 99-112). -/
noncomputable def duotonePixel (r g b : ℕ) : ℕ × ℕ × ℕ :=
  let t := normalizedGray (gray r g b)
  ( clampToByte (interpChannel darkColor.r lightColor.r t)
  , clampToByte (interpChannel darkColor.g lightColor.g t)
  , clampToByte (interpChannel darkColor.b lightColor.b t) )

/-- The pixel loop `for (let i = 0; i < data.length; i += 4)` (App.tsx
lines 98-113) over the flat RGBA byte buffer.  On a buffer whose length is
not a multiple of four the JavaScript loop still runs: reads past the end
of the typed array yield `undefined`, the arithmetic then produces `NaN`,
a `NaN` store becomes the byte `0`, and writes past the end are dropped.
Hence a trailing group of three bytes is transformed as a normal pixel
(all its reads and writes are in bounds), while a trailing group of one or
two bytes is overwritten with zero bytes. -/
noncomputable def duotoneData : List ℕ → List ℕ
  | r :: g :: b :: a :: rest =>
      (duotonePixel r g b).1 :: (duotonePixel r g b).2.1 ::
        (duotonePixel r g b).2.2 :: a :: duotoneData rest
  | [r, g, b] => [(duotonePixel r g b).1, (duotonePixel r g b).2.1,
      (duotonePixel r g b).2.2]
  | [_, _] => [0, 0]
  | [_] => [0]
  | [] => []

/-- A decoded bitmap: dimensions and the flat RGBA byte buffer, as the
`ImageData` the source obtains from the canvas (App.tsx lines 91-92). -/
structure Bitmap where
  width : ℕ
  height : ℕ
  data : List ℕ
deriving DecidableEq

/-- A well-formed bitmap: the buffer holds exactly `width * height * 4`
entries and every entry is a byte. -/
def Bitmap.WellFormed (bm : Bitmap) : Prop :=
  bm.data.length = bm.width * bm.height * 4 ∧ ∀ v ∈ bm.data, v ≤ 255

instance (bm : Bitmap) : Decidable bm.WellFormed := by
  unfold Bitmap.WellFormed
  infer_instance

/-- The mapper: the source reads the `ImageData` of the canvas, rewrites
its buffer in place with the pixel loop and puts it back at the same size
(App.tsx lines 91-115); dimensions are untouched. -/
noncomputable def applyDuotoneFilter (bm : Bitmap) : Bitmap :=
  ⟨bm.width, bm.height, duotoneData bm.data⟩

/-! ### Basic facts about the embedded arithmetic -/

theorem gamma_inv : (1 : ℝ) / gamma = 10 / 9 := by
  unfold gamma
  norm_num

theorem normalizedGray_eq (gy : ℝ) :
    normalizedGray gy = (gy / 255) ^ ((10 : ℝ) / 9) := by
  unfold normalizedGray correctedGray
  rw [gamma_inv]
  ring

theorem gray_nonneg (r g b : ℝ) (hr : 0 ≤ r) (hg : 0 ≤ g) (hb : 0 ≤ b) :
    0 ≤ gray r g b := by
  unfold gray
  nlinarith

theorem gray_le_255 (r g b : ℝ) (hr : r ≤ 255) (hg : g ≤ 255)
    (hb : b ≤ 255) : gray r g b ≤ 255 := by
  unfold gray
  nlinarith

theorem gray_mono (r g b r' g' b' : ℝ) (hr : r ≤ r') (hg : g ≤ g')
    (hb : b ≤ b') : gray r g b ≤ gray r' g' b' := by
  unfold gray
  nlinarith

theorem normalizedGray_nonneg (gy : ℝ) (h : 0 ≤ gy) :
    0 ≤ normalizedGray gy := by
  rw [normalizedGray_eq]
  exact Real.rpow_nonneg (by positivity) _

theorem normalizedGray_le_one (gy : ℝ) (h0 : 0 ≤ gy) (h1 : gy ≤ 255) :
    normalizedGray gy ≤ 1 := by
  rw [normalizedGray_eq]
  exact Real.rpow_le_one (by positivity) (by linarith) (by norm_num)

theorem normalizedGray_mono (x y : ℝ) (h0 : 0 ≤ x) (h : x ≤ y) :
    normalizedGray x ≤ normalizedGray y := by
  rw [normalizedGray_eq, normalizedGray_eq]
  exact Real.rpow_le_rpow (by positivity) (by linarith) (by norm_num)

theorem normalizedGray_zero : normalizedGray 0 = 0 := by
  rw [normalizedGray_eq]
  norm_num

theorem normalizedGray_255 : normalizedGray 255 = 1 := by
  rw [normalizedGray_eq]
  norm_num

/-! ### The byte store conversion -/

theorem roundTE_eq (n : ℤ) (x : ℝ) (h1 : (n : ℝ) - 1 / 2 < x)
    (h2 : x < (n : ℝ) + 1 / 2) : roundTiesToEven x = n := by
  unfold roundTiesToEven
  rcases le_or_lt (n : ℝ) x with h | h
  · have hf : ⌊x⌋ = n := Int.floor_eq_iff.mpr ⟨h, by linarith⟩
    have hfr : Int.fract x < 1 / 2 := by
      have hd : x - (⌊x⌋ : ℝ) = Int.fract x := Int.self_sub_floor x
      rw [hf] at hd
      linarith
    rw [if_pos hfr]
    exact hf
  · have hf : ⌊x⌋ = n - 1 := by
      apply Int.floor_eq_iff.mpr
      constructor
      · push_cast; linarith
      · push_cast; linarith
    have hfr : 1 / 2 < Int.fract x := by
      have hd : x - (⌊x⌋ : ℝ) = Int.fract x := Int.self_sub_floor x
      rw [hf] at hd
      push_cast at hd
      linarith
    rw [if_neg (by linarith), if_pos hfr]
    omega

theorem roundTE_upper (x : ℝ) : (roundTiesToEven x : ℝ) ≤ x + 1 / 2 := by
  have h0 := Int.fract_nonneg x
  have h1 := Int.fract_lt_one x
  have hd : x - (⌊x⌋ : ℝ) = Int.fract x := Int.self_sub_floor x
  have hfl := Int.floor_le x
  unfold roundTiesToEven
  split_ifs with ha hb hc
  · linarith
  · push_cast
    linarith
  · linarith
  · push_cast
    linarith

theorem roundTE_lower (x : ℝ) : x - 1 / 2 ≤ (roundTiesToEven x : ℝ) := by
  have h0 := Int.fract_nonneg x
  have h1 := Int.fract_lt_one x
  have hd : x - (⌊x⌋ : ℝ) = Int.fract x := Int.self_sub_floor x
  unfold roundTiesToEven
  split_ifs with ha hb hc
  · linarith
  · push_cast
    linarith
  · linarith
  · push_cast
    linarith

theorem roundTE_mono (x y : ℝ) (h : x ≤ y) :
    roundTiesToEven x ≤ roundTiesToEven y := by
  have hfl : ⌊x⌋ ≤ ⌊y⌋ := Int.floor_le_floor h
  rcases lt_or_eq_of_le hfl with hlt | heq
  · have h1 : roundTiesToEven x ≤ ⌊x⌋ + 1 := by
      unfold roundTiesToEven
      split_ifs <;> omega
    have h2 : ⌊y⌋ ≤ roundTiesToEven y := by
      unfold roundTiesToEven
      split_ifs <;> omega
    omega
  · have hdx : x - (⌊x⌋ : ℝ) = Int.fract x := Int.self_sub_floor x
    have hdy : y - (⌊y⌋ : ℝ) = Int.fract y := Int.self_sub_floor y
    have heqR : ((⌊x⌋ : ℤ) : ℝ) = ((⌊y⌋ : ℤ) : ℝ) := by exact_mod_cast heq
    have hfr : Int.fract x ≤ Int.fract y := by linarith
    unfold roundTiesToEven
    split_ifs <;> first | omega | linarith

theorem roundTE_nonneg (x : ℝ) (h : 0 ≤ x) : 0 ≤ roundTiesToEven x := by
  have h1 : (-1 : ℝ) < (roundTiesToEven x : ℝ) := by
    linarith [roundTE_lower x]
  have h2 : (-1 : ℤ) < roundTiesToEven x := by exact_mod_cast h1
  omega

theorem clampToByte_le_255 (x : ℝ) : clampToByte x ≤ 255 := by
  unfold clampToByte
  split_ifs with h1 h2
  · omega
  · omega
  · have h3 : (roundTiesToEven x : ℝ) < 256 := by
      linarith [roundTE_upper x, lt_of_not_le h2]
    have h4 : roundTiesToEven x < 256 := by exact_mod_cast h3
    omega

theorem clampToByte_mono (x y : ℝ) (h : x ≤ y) :
    clampToByte x ≤ clampToByte y := by
  unfold clampToByte
  by_cases hx0 : x ≤ 0
  · rw [if_pos hx0]
    exact Nat.zero_le _
  · rw [if_neg hx0]
    have hy0 : ¬ y ≤ 0 := by
      push_neg
      linarith [lt_of_not_le hx0]
    rw [if_neg hy0]
    by_cases hy255 : 255 ≤ y
    · rw [if_pos hy255]
      by_cases hx255 : 255 ≤ x
      · rw [if_pos hx255]
      · rw [if_neg hx255]
        have h3 : (roundTiesToEven x : ℝ) < 256 := by
          linarith [roundTE_upper x, lt_of_not_le hx255]
        have h4 : roundTiesToEven x < 256 := by exact_mod_cast h3
        omega
    · rw [if_neg hy255]
      have hx255 : ¬ 255 ≤ x := by
        push_neg
        linarith [lt_of_not_le hy255]
      rw [if_neg hx255]
      have h5 := roundTE_mono x y h
      omega

theorem clampToByte_eq (x : ℝ) (n : ℕ) (hn : n ≤ 255)
    (h1 : (n : ℝ) - 1 / 2 < x) (h2 : x < (n : ℝ) + 1 / 2) :
    clampToByte x = n := by
  unfold clampToByte
  split_ifs with hx0 hx255
  · have h3 : (n : ℝ) < 1 := by linarith
    have h4 : n < 1 := by exact_mod_cast h3
    omega
  · have h3 : (254 : ℝ) < (n : ℝ) := by linarith
    have h4 : (254 : ℕ) < n := by exact_mod_cast h3
    omega
  · have h5 : roundTiesToEven x = (n : ℤ) := by
      apply roundTE_eq
      · push_cast
        linarith
      · push_cast
        linarith
    rw [h5]
    omega

theorem clampToByte_near (x : ℝ) (h0 : 0 < x) (h255 : x < 255) :
    |((clampToByte x : ℕ) : ℝ) - x| ≤ 1 / 2 := by
  unfold clampToByte
  rw [if_neg (by linarith), if_neg (by linarith)]
  have hge : 0 ≤ roundTiesToEven x := roundTE_nonneg x h0.le
  have hcast : (((roundTiesToEven x).toNat : ℕ) : ℝ) =
      ((roundTiesToEven x : ℤ) : ℝ) := by
    exact_mod_cast congrArg (fun z : ℤ => (z : ℝ)) (Int.toNat_of_nonneg hge)
  rw [hcast, abs_le]
  constructor
  · linarith [roundTE_lower x]
  · linarith [roundTE_upper x]

/-! ### Pixel-level facts -/

theorem duotonePixel_def (r g b : ℕ) :
    duotonePixel r g b =
      ( clampToByte (interpChannel 27 247 (normalizedGray (gray r g b)))
      , clampToByte (interpChannel 96 132 (normalizedGray (gray r g b)))
      , clampToByte (interpChannel 47 197 (normalizedGray (gray r g b))) ) :=
  rfl

theorem grayN_nonneg (r g b : ℕ) : 0 ≤ gray r g b :=
  gray_nonneg _ _ _ (Nat.cast_nonneg r) (Nat.cast_nonneg g) (Nat.cast_nonneg b)

theorem grayN_le (r g b : ℕ) (hr : r ≤ 255) (hg : g ≤ 255) (hb : b ≤ 255) :
    gray r g b ≤ 255 := by
  apply gray_le_255 <;> exact_mod_cast ‹_›

theorem interp_lower (dc lc : ℕ) (hdl : dc ≤ lc) (t : ℝ) (h0 : 0 ≤ t) :
    (dc : ℝ) ≤ interpChannel dc lc t := by
  unfold interpChannel
  have hc : (dc : ℝ) ≤ (lc : ℝ) := by exact_mod_cast hdl
  nlinarith

theorem interp_upper (dc lc : ℕ) (hdl : dc ≤ lc) (t : ℝ) (h1 : t ≤ 1) :
    interpChannel dc lc t ≤ (lc : ℝ) := by
  unfold interpChannel
  have hc : (dc : ℝ) ≤ (lc : ℝ) := by exact_mod_cast hdl
  nlinarith

theorem interp_mono (dc lc : ℕ) (hdl : dc ≤ lc) (t t' : ℝ) (h : t ≤ t') :
    interpChannel dc lc t ≤ interpChannel dc lc t' := by
  unfold interpChannel
  have hc : (dc : ℝ) ≤ (lc : ℝ) := by exact_mod_cast hdl
  nlinarith

theorem clampToByte_cast (n : ℕ) (hn : n ≤ 255) : clampToByte n = n := by
  apply clampToByte_eq _ n hn
  · linarith
  · linarith

theorem clampToByte_interp_bounds (dc lc : ℕ) (hdl : dc ≤ lc)
    (hlc : lc ≤ 255) (t : ℝ) (h0 : 0 ≤ t) (h1 : t ≤ 1) :
    dc ≤ clampToByte (interpChannel dc lc t) ∧
      clampToByte (interpChannel dc lc t) ≤ lc := by
  have hm1 := clampToByte_mono _ _ (interp_lower dc lc hdl t h0)
  have hm2 := clampToByte_mono _ _ (interp_upper dc lc hdl t h1)
  rw [clampToByte_cast dc (le_trans hdl hlc)] at hm1
  rw [clampToByte_cast lc hlc] at hm2
  exact ⟨hm1, hm2⟩

theorem duotonePixel_bounds (r g b : ℕ) (hr : r ≤ 255) (hg : g ≤ 255)
    (hb : b ≤ 255) :
    (27 ≤ (duotonePixel r g b).1 ∧ (duotonePixel r g b).1 ≤ 247) ∧
      (96 ≤ (duotonePixel r g b).2.1 ∧ (duotonePixel r g b).2.1 ≤ 132) ∧
      (47 ≤ (duotonePixel r g b).2.2 ∧ (duotonePixel r g b).2.2 ≤ 197) := by
  rw [duotonePixel_def]
  have ht0 : 0 ≤ normalizedGray (gray r g b) :=
    normalizedGray_nonneg _ (grayN_nonneg r g b)
  have ht1 : normalizedGray (gray r g b) ≤ 1 :=
    normalizedGray_le_one _ (grayN_nonneg r g b) (grayN_le r g b hr hg hb)
  refine ⟨?_, ?_, ?_⟩
  · exact clampToByte_interp_bounds 27 247 (by norm_num) (by norm_num) _ ht0 ht1
  · exact clampToByte_interp_bounds 96 132 (by norm_num) (by norm_num) _ ht0 ht1
  · exact clampToByte_interp_bounds 47 197 (by norm_num) (by norm_num) _ ht0 ht1

theorem duotonePixel_mono (r g b r' g' b' : ℕ) (h1 : r ≤ r') (h2 : g ≤ g')
    (h3 : b ≤ b') :
    (duotonePixel r g b).1 ≤ (duotonePixel r' g' b').1 ∧
      (duotonePixel r g b).2.1 ≤ (duotonePixel r' g' b').2.1 ∧
      (duotonePixel r g b).2.2 ≤ (duotonePixel r' g' b').2.2 := by
  rw [duotonePixel_def, duotonePixel_def]
  have hgm : gray r g b ≤ gray r' g' b' := by
    apply gray_mono <;> exact_mod_cast ‹_›
  have htm : normalizedGray (gray r g b) ≤ normalizedGray (gray r' g' b') :=
    normalizedGray_mono _ _ (grayN_nonneg r g b) hgm
  refine ⟨?_, ?_, ?_⟩
  · exact clampToByte_mono _ _ (interp_mono 27 247 (by norm_num) _ _ htm)
  · exact clampToByte_mono _ _ (interp_mono 96 132 (by norm_num) _ _ htm)
  · exact clampToByte_mono _ _ (interp_mono 47 197 (by norm_num) _ _ htm)

theorem duotonePixel_black : duotonePixel 0 0 0 = (27, 96, 47) := by
  rw [duotonePixel_def]
  have hgz : gray ((0 : ℕ) : ℝ) ((0 : ℕ) : ℝ) ((0 : ℕ) : ℝ) = 0 := by
    unfold gray
    push_cast
    ring
  rw [hgz, normalizedGray_zero]
  have e1 : interpChannel 27 247 0 = 27 := by
    unfold interpChannel
    push_cast
    ring
  have e2 : interpChannel 96 132 0 = 96 := by
    unfold interpChannel
    push_cast
    ring
  have e3 : interpChannel 47 197 0 = 47 := by
    unfold interpChannel
    push_cast
    ring
  rw [e1, e2, e3,
    clampToByte_eq (27 : ℝ) 27 (by norm_num) (by norm_num) (by norm_num),
    clampToByte_eq (96 : ℝ) 96 (by norm_num) (by norm_num) (by norm_num),
    clampToByte_eq (47 : ℝ) 47 (by norm_num) (by norm_num) (by norm_num)]

theorem duotonePixel_white : duotonePixel 255 255 255 = (247, 132, 197) := by
  rw [duotonePixel_def]
  have hgw : gray ((255 : ℕ) : ℝ) ((255 : ℕ) : ℝ) ((255 : ℕ) : ℝ) = 255 := by
    unfold gray
    push_cast
    norm_num
  rw [hgw, normalizedGray_255]
  have e1 : interpChannel 27 247 1 = 247 := by
    unfold interpChannel
    push_cast
    ring
  have e2 : interpChannel 96 132 1 = 132 := by
    unfold interpChannel
    push_cast
    ring
  have e3 : interpChannel 47 197 1 = 197 := by
    unfold interpChannel
    push_cast
    ring
  rw [e1, e2, e3,
    clampToByte_eq (247 : ℝ) 247 (by norm_num) (by norm_num) (by norm_num),
    clampToByte_eq (132 : ℝ) 132 (by norm_num) (by norm_num) (by norm_num),
    clampToByte_eq (197 : ℝ) 197 (by norm_num) (by norm_num) (by norm_num)]

/-! ### Rational bounds on the gamma-corrected value -/

theorem rpow_ten_ninths_nine (x : ℝ) (hx : 0 ≤ x) :
    (x ^ ((10 : ℝ) / 9)) ^ (9 : ℕ) = x ^ (10 : ℕ) := by
  rw [← Real.rpow_natCast (x ^ ((10 : ℝ) / 9)) 9, ← Real.rpow_mul hx,
    ← Real.rpow_natCast x 10]
  norm_num

theorem t_lower (x a : ℝ) (hx : 0 ≤ x) (ha : 0 ≤ a)
    (h : a ^ (9 : ℕ) ≤ x ^ (10 : ℕ)) : a ≤ x ^ ((10 : ℝ) / 9) := by
  have ht : 0 ≤ x ^ ((10 : ℝ) / 9) := Real.rpow_nonneg hx _
  have h9 : a ^ (9 : ℕ) ≤ (x ^ ((10 : ℝ) / 9)) ^ (9 : ℕ) := by
    rw [rpow_ten_ninths_nine x hx]
    exact h
  exact (pow_le_pow_iff_left₀ ha ht (by norm_num)).mp h9

theorem t_upper (x c : ℝ) (hx : 0 ≤ x) (hc : 0 ≤ c)
    (h : x ^ (10 : ℕ) ≤ c ^ (9 : ℕ)) : x ^ ((10 : ℝ) / 9) ≤ c := by
  have ht : 0 ≤ x ^ ((10 : ℝ) / 9) := Real.rpow_nonneg hx _
  have h9 : (x ^ ((10 : ℝ) / 9)) ^ (9 : ℕ) ≤ c ^ (9 : ℕ) := by
    rw [rpow_ten_ninths_nine x hx]
    exact h
  exact (pow_le_pow_iff_left₀ ht hc (by norm_num)).mp h9

theorem t128_lower : (4645 / 10000 : ℝ) ≤ normalizedGray 128 := by
  rw [normalizedGray_eq]
  apply t_lower _ _ (by norm_num) (by norm_num)
  norm_num

theorem t128_upper : normalizedGray 128 ≤ (4654 / 10000 : ℝ) := by
  rw [normalizedGray_eq]
  apply t_upper _ _ (by norm_num) (by norm_num)
  norm_num

theorem gray_128 : gray ((128 : ℕ) : ℝ) ((128 : ℕ) : ℝ) ((128 : ℕ) : ℝ)
    = 128 := by
  unfold gray
  push_cast
  norm_num

theorem duotonePixel_midgray : duotonePixel 128 128 128 = (129, 113, 117) := by
  rw [duotonePixel_def, gray_128]
  have hlo := t128_lower
  have hhi := t128_upper
  have e1 : clampToByte (interpChannel 27 247 (normalizedGray 128)) = 129 := by
    apply clampToByte_eq _ 129 (by norm_num)
    · unfold interpChannel
      push_cast
      linarith
    · unfold interpChannel
      push_cast
      linarith
  have e2 : clampToByte (interpChannel 96 132 (normalizedGray 128)) = 113 := by
    apply clampToByte_eq _ 113 (by norm_num)
    · unfold interpChannel
      push_cast
      linarith
    · unfold interpChannel
      push_cast
      linarith
  have e3 : clampToByte (interpChannel 47 197 (normalizedGray 128)) = 117 := by
    apply clampToByte_eq _ 117 (by norm_num)
    · unfold interpChannel
      push_cast
      linarith
    · unfold interpChannel
      push_cast
      linarith
  rw [e1, e2, e3]

theorem duotonePixel_dark_first : 41 ≤ (duotonePixel 27 96 47).1 := by
  rw [duotonePixel_def]
  have hgd : gray ((27 : ℕ) : ℝ) ((96 : ℕ) : ℝ) ((47 : ℕ) : ℝ)
      = 69783 / 1000 := by
    unfold gray
    push_cast
    norm_num
  rw [hgd]
  have hq2 : ((1 : ℝ) / 4) ^ ((2 : ℝ)) ≤ ((1 : ℝ) / 4) ^ ((10 : ℝ) / 9) :=
    Real.rpow_le_rpow_of_exponent_ge (by norm_num) (by norm_num) (by norm_num)
  have hq3 : ((1 : ℝ) / 4) ^ (2 : ℝ) = 1 / 16 := by
    rw [show (2 : ℝ) = ((2 : ℕ) : ℝ) by norm_num, Real.rpow_natCast]
    norm_num
  have hq : ((1 : ℝ) / 4) ^ ((10 : ℝ) / 9)
      ≤ ((69783 / 1000 : ℝ) / 255) ^ ((10 : ℝ) / 9) :=
    Real.rpow_le_rpow (by norm_num) (by norm_num) (by norm_num)
  have ht : (1 / 16 : ℝ) ≤ normalizedGray (69783 / 1000) := by
    rw [normalizedGray_eq]
    linarith
  have hi : (163 / 4 : ℝ) ≤ interpChannel 27 247 (normalizedGray
      (69783 / 1000)) := by
    unfold interpChannel
    push_cast
    linarith
  have hm := clampToByte_mono _ _ hi
  rw [clampToByte_eq (163 / 4 : ℝ) 41 (by norm_num) (by norm_num)
    (by norm_num)] at hm
  exact hm

/-! ### The pixel loop over the byte buffer -/

theorem chunk4_induction (P : List ℕ → Prop)
    (h4 : ∀ r g b a rest, P rest → P (r :: g :: b :: a :: rest))
    (h3 : ∀ r g b, P [r, g, b]) (h2 : ∀ x y, P [x, y])
    (h1 : ∀ x, P [x]) (h0 : P []) : ∀ l, P l
  | r :: g :: b :: a :: rest =>
      h4 r g b a rest (chunk4_induction P h4 h3 h2 h1 h0 rest)
  | [r, g, b] => h3 r g b
  | [x, y] => h2 x y
  | [x] => h1 x
  | [] => h0

theorem duotoneData_length (l : List ℕ) :
    (duotoneData l).length = l.length := by
  induction l using chunk4_induction with
  | h4 r g b a rest ih => simp [duotoneData, ih]
  | h3 r g b => simp [duotoneData]
  | h2 x y => simp [duotoneData]
  | h1 x => simp [duotoneData]
  | h0 => simp [duotoneData]

theorem duotoneData_quad (r g b a : ℕ) :
    duotoneData [r, g, b, a] = [(duotonePixel r g b).1,
      (duotonePixel r g b).2.1, (duotonePixel r g b).2.2, a] := by
  simp [duotoneData]

theorem duotoneData_alpha (l : List ℕ) (i : ℕ) :
    (duotoneData l)[4 * i + 3]? = l[4 * i + 3]? := by
  induction l using chunk4_induction generalizing i with
  | h4 r g b a rest ih =>
    match i with
    | 0 => simp [duotoneData]
    | j + 1 =>
      have hidx : 4 * (j + 1) + 3 = 4 * j + 3 + 1 + 1 + 1 + 1 := by ring
      rw [hidx]
      simp only [duotoneData, List.getElem?_cons_succ]
      exact ih j
  | h3 r g b =>
    rw [List.getElem?_eq_none (by simp [duotoneData]),
      List.getElem?_eq_none (by simp)]
  | h2 x y =>
    rw [List.getElem?_eq_none (by simp [duotoneData]),
      List.getElem?_eq_none (by simp)]
  | h1 x =>
    rw [List.getElem?_eq_none (by simp [duotoneData]),
      List.getElem?_eq_none (by simp)]
  | h0 => simp [duotoneData]

theorem duotoneData_bounds (l : List ℕ) (hlen : l.length % 4 = 0)
    (hb : ∀ v ∈ l, v ≤ 255) (i : ℕ) :
    (∀ x, (duotoneData l)[4 * i]? = some x → 27 ≤ x ∧ x ≤ 247) ∧
      (∀ x, (duotoneData l)[4 * i + 1]? = some x → 96 ≤ x ∧ x ≤ 132) ∧
      (∀ x, (duotoneData l)[4 * i + 2]? = some x → 47 ≤ x ∧ x ≤ 197) := by
  induction l using chunk4_induction generalizing i with
  | h4 r g b a rest ih =>
    have hr : r ≤ 255 := hb r (by simp)
    have hg : g ≤ 255 := hb g (by simp)
    have hbb : b ≤ 255 := hb b (by simp)
    have hbnd := duotonePixel_bounds r g b hr hg hbb
    match i with
    | 0 =>
      rw [show 4 * 0 = 0 from rfl, show 4 * 0 + 1 = 0 + 1 from rfl,
        show 4 * 0 + 2 = 0 + 1 + 1 from rfl]
      simp only [duotoneData, List.getElem?_cons_zero,
        List.getElem?_cons_succ]
      obtain ⟨⟨hb1, hb2⟩, ⟨hb3, hb4⟩, hb5, hb6⟩ := hbnd
      refine ⟨?_, ?_, ?_⟩ <;> intro x hx <;>
        simp only [Option.some.injEq] at hx <;> omega
    | j + 1 =>
      have hlen' : rest.length % 4 = 0 := by
        simp only [List.length_cons] at hlen
        omega
      have hb' : ∀ v ∈ rest, v ≤ 255 := fun v hv => hb v (by simp [hv])
      refine ⟨?_, ?_, ?_⟩
      · rw [show 4 * (j + 1) = 4 * j + 1 + 1 + 1 + 1 from by ring]
        simp only [duotoneData, List.getElem?_cons_succ]
        exact (ih hlen' hb' j).1
      · rw [show 4 * (j + 1) + 1 = 4 * j + 1 + 1 + 1 + 1 + 1 from by ring]
        simp only [duotoneData, List.getElem?_cons_succ]
        exact (ih hlen' hb' j).2.1
      · rw [show 4 * (j + 1) + 2 = 4 * j + 2 + 1 + 1 + 1 + 1 from by ring]
        simp only [duotoneData, List.getElem?_cons_succ]
        exact (ih hlen' hb' j).2.2
  | h3 r g b => simp at hlen
  | h2 x y => simp at hlen
  | h1 x => simp at hlen
  | h0 =>
    refine ⟨?_, ?_, ?_⟩ <;> intro x hx <;>
      simp [duotoneData] at hx

theorem clampToByte_interp_near (dc lc : ℕ) (hdc : 1 ≤ dc) (hdl : dc ≤ lc)
    (hlc : lc < 255) (t : ℝ) (h0 : 0 ≤ t) (h1 : t ≤ 1) :
    |((clampToByte (interpChannel dc lc t) : ℕ) : ℝ)
      - interpChannel dc lc t| ≤ 1 / 2 := by
  apply clampToByte_near
  · have hl := interp_lower dc lc hdl t h0
    have hc : (1 : ℝ) ≤ (dc : ℝ) := by exact_mod_cast hdc
    linarith
  · have hu := interp_upper dc lc hdl t h1
    have hc : (lc : ℝ) < 255 := by exact_mod_cast hlc
    linarith

/-! ### Claims -/

/-- Claim C6: for an input pixel with RGB channels (0,0,0) and any alpha,
the mapper computes gray = 0, correctedGray = 0, t = 0, and the output RGB
channels equal the dark endpoint (27, 96, 47) exactly, with the alpha byte
carried through. -/
theorem black_pixel_to_dark :
    gray 0 0 0 = 0 ∧ correctedGray 0 = 0 ∧ normalizedGray 0 = 0 ∧
      ∀ a : ℕ, duotoneData [0, 0, 0, a] = [27, 96, 47, a] := by
  refine ⟨?_, ?_, normalizedGray_zero, ?_⟩
  · unfold gray
    norm_num
  · unfold correctedGray
    rw [gamma_inv]
    norm_num
  · intro a
    rw [duotoneData_quad, duotonePixel_black]

/-- Claim C7: for an input pixel with RGB channels (255,255,255) and any
alpha, the mapper computes gray = 255, correctedGray = 255, t = 1, and the
output RGB channels equal the light endpoint (247, 132, 197) exactly, with
the alpha byte carried through. -/
theorem white_pixel_to_light :
    gray 255 255 255 = 255 ∧ correctedGray 255 = 255 ∧
      normalizedGray 255 = 1 ∧
      ∀ a : ℕ, duotoneData [255, 255, 255, a] = [247, 132, 197, a] := by
  refine ⟨?_, ?_, normalizedGray_255, ?_⟩
  · unfold gray
    norm_num
  · unfold correctedGray
    rw [gamma_inv]
    norm_num
  · intro a
    rw [duotoneData_quad, duotonePixel_white]

/-- Claim C1, counterexample: on the mid-gray pixel (128,128,128) the code
does not produce the claimed output channels (147, 116, 129). -/
theorem midgray_claim_false : duotonePixel 128 128 128 ≠ (147, 116, 129) := by
  rw [duotonePixel_midgray]
  decide

/-- Claim C1, amended: on the mid-gray pixel (128,128,128) the mapper
computes gray = 128 and t = (128/255)^(1/0.9), which lies in
[0.4645, 0.4654] (about 0.4650, not the 0.5438 of the claim), and the
output RGB channels are (129, 113, 117), with the alpha byte carried
through. -/
theorem midgray_pixel_value :
    gray 128 128 128 = 128 ∧
      (4645 / 10000 : ℝ) ≤ normalizedGray 128 ∧
      normalizedGray 128 ≤ (4654 / 10000 : ℝ) ∧
      ∀ a : ℕ, duotoneData [128, 128, 128, a] = [129, 113, 117, a] := by
  refine ⟨?_, t128_lower, t128_upper, ?_⟩
  · unfold gray
    norm_num
  · intro a
    rw [duotoneData_quad, duotonePixel_midgray]

/-- Claim C2, counterexample: a malformed bitmap whose buffer length 5
differs from width times height times 4 is not rejected with an error; the
mapper still produces an output bitmap (the code has no validation and no
InvalidBitmap error path). -/
theorem malformed_input_not_rejected :
    ¬ (Bitmap.mk 1 1 [0, 0, 0, 255, 17]).WellFormed ∧
      applyDuotoneFilter (Bitmap.mk 1 1 [0, 0, 0, 255, 17]) =
        Bitmap.mk 1 1 [27, 96, 47, 255, 0] := by
  constructor
  · decide
  · unfold applyDuotoneFilter
    simp [duotoneData, duotonePixel_black]

/-- Claim C2, amended: the mapper performs no buffer validation and never
fails; for every input bitmap, well-formed or not, it totally produces an
output bitmap with the same width, height and buffer length. -/
theorem mapper_total_on_any_buffer (bm : Bitmap) :
    (applyDuotoneFilter bm).width = bm.width ∧
      (applyDuotoneFilter bm).height = bm.height ∧
      (applyDuotoneFilter bm).data.length = bm.data.length :=
  ⟨rfl, rfl, duotoneData_length bm.data⟩

/-- Claim C3: for a well-formed pixel the parameter t lies in [0,1], so
clamping t to [0,1] before interpolation leaves the output unchanged; each
output RGB channel is the interpolated real value rounded to a nearest
integer (within one half) and constrained to [0,255]. -/
theorem interpolation_clamped_rounded (r g b : ℕ) (hr : r ≤ 255)
    (hg : g ≤ 255) (hb : b ≤ 255) :
    0 ≤ normalizedGray (gray r g b) ∧ normalizedGray (gray r g b) ≤ 1 ∧
      duotonePixel r g b =
        ( clampToByte (interpChannel 27 247
            (max 0 (min 1 (normalizedGray (gray r g b)))))
        , clampToByte (interpChannel 96 132
            (max 0 (min 1 (normalizedGray (gray r g b)))))
        , clampToByte (interpChannel 47 197
            (max 0 (min 1 (normalizedGray (gray r g b)))))) ∧
      |((duotonePixel r g b).1 : ℝ)
        - interpChannel 27 247 (normalizedGray (gray r g b))| ≤ 1 / 2 ∧
      |((duotonePixel r g b).2.1 : ℝ)
        - interpChannel 96 132 (normalizedGray (gray r g b))| ≤ 1 / 2 ∧
      |((duotonePixel r g b).2.2 : ℝ)
        - interpChannel 47 197 (normalizedGray (gray r g b))| ≤ 1 / 2 ∧
      (duotonePixel r g b).1 ≤ 255 ∧ (duotonePixel r g b).2.1 ≤ 255 ∧
      (duotonePixel r g b).2.2 ≤ 255 := by
  have ht0 : 0 ≤ normalizedGray (gray r g b) :=
    normalizedGray_nonneg _ (grayN_nonneg r g b)
  have ht1 : normalizedGray (gray r g b) ≤ 1 :=
    normalizedGray_le_one _ (grayN_nonneg r g b) (grayN_le r g b hr hg hb)
  refine ⟨ht0, ht1, ?_, ?_, ?_, ?_, ?_, ?_, ?_⟩
  · rw [min_eq_right ht1, max_eq_right ht0]
    exact duotonePixel_def r g b
  · rw [duotonePixel_def]
    exact clampToByte_interp_near 27 247 (by norm_num) (by norm_num)
      (by norm_num) _ ht0 ht1
  · rw [duotonePixel_def]
    exact clampToByte_interp_near 96 132 (by norm_num) (by norm_num)
      (by norm_num) _ ht0 ht1
  · rw [duotonePixel_def]
    exact clampToByte_interp_near 47 197 (by norm_num) (by norm_num)
      (by norm_num) _ ht0 ht1
  · rw [duotonePixel_def]
    exact clampToByte_le_255 _
  · rw [duotonePixel_def]
    exact clampToByte_le_255 _
  · rw [duotonePixel_def]
    exact clampToByte_le_255 _

/-- Witness for claim C3 at the concrete pixel (0,0,0). -/
theorem interpolation_clamped_rounded_witness :
    0 ≤ normalizedGray (gray ((0 : ℕ) : ℝ) ((0 : ℕ) : ℝ) ((0 : ℕ) : ℝ)) ∧
      normalizedGray (gray ((0 : ℕ) : ℝ) ((0 : ℕ) : ℝ) ((0 : ℕ) : ℝ)) ≤ 1 ∧
      duotonePixel 0 0 0 =
        ( clampToByte (interpChannel 27 247 (max 0 (min 1 (normalizedGray
            (gray ((0 : ℕ) : ℝ) ((0 : ℕ) : ℝ) ((0 : ℕ) : ℝ))))))
        , clampToByte (interpChannel 96 132 (max 0 (min 1 (normalizedGray
            (gray ((0 : ℕ) : ℝ) ((0 : ℕ) : ℝ) ((0 : ℕ) : ℝ))))))
        , clampToByte (interpChannel 47 197 (max 0 (min 1 (normalizedGray
            (gray ((0 : ℕ) : ℝ) ((0 : ℕ) : ℝ) ((0 : ℕ) : ℝ))))))) ∧
      |((duotonePixel 0 0 0).1 : ℝ) - interpChannel 27 247 (normalizedGray
        (gray ((0 : ℕ) : ℝ) ((0 : ℕ) : ℝ) ((0 : ℕ) : ℝ)))| ≤ 1 / 2 ∧
      |((duotonePixel 0 0 0).2.1 : ℝ) - interpChannel 96 132 (normalizedGray
        (gray ((0 : ℕ) : ℝ) ((0 : ℕ) : ℝ) ((0 : ℕ) : ℝ)))| ≤ 1 / 2 ∧
      |((duotonePixel 0 0 0).2.2 : ℝ) - interpChannel 47 197 (normalizedGray
        (gray ((0 : ℕ) : ℝ) ((0 : ℕ) : ℝ) ((0 : ℕ) : ℝ)))| ≤ 1 / 2 ∧
      (duotonePixel 0 0 0).1 ≤ 255 ∧ (duotonePixel 0 0 0).2.1 ≤ 255 ∧
      (duotonePixel 0 0 0).2.2 ≤ 255 :=
  interpolation_clamped_rounded 0 0 0 (by decide) (by decide) (by decide)

/-- Claim C4: raising input channels (componentwise) does not decrease
gray, hence does not decrease t, hence every output channel is
non-decreasing, moving toward the light endpoint. -/
theorem output_monotone_in_channels (r g b r' g' b' : ℕ) (_hr : r' ≤ 255)
    (_hg : g' ≤ 255) (_hb : b' ≤ 255) (h1 : r ≤ r') (h2 : g ≤ g')
    (h3 : b ≤ b') :
    gray r g b ≤ gray r' g' b' ∧
      normalizedGray (gray r g b) ≤ normalizedGray (gray r' g' b') ∧
      (duotonePixel r g b).1 ≤ (duotonePixel r' g' b').1 ∧
      (duotonePixel r g b).2.1 ≤ (duotonePixel r' g' b').2.1 ∧
      (duotonePixel r g b).2.2 ≤ (duotonePixel r' g' b').2.2 := by
  have hgm : gray r g b ≤ gray r' g' b' := by
    apply gray_mono <;> exact_mod_cast ‹_›
  have htm := normalizedGray_mono _ _ (grayN_nonneg r g b) hgm
  have hpm := duotonePixel_mono r g b r' g' b' h1 h2 h3
  exact ⟨hgm, htm, hpm.1, hpm.2.1, hpm.2.2⟩

/-- Witness for claim C4, raising the pixel (0,0,0) to (255,255,255). -/
theorem output_monotone_in_channels_witness :
    gray ((0 : ℕ) : ℝ) ((0 : ℕ) : ℝ) ((0 : ℕ) : ℝ)
      ≤ gray ((255 : ℕ) : ℝ) ((255 : ℕ) : ℝ) ((255 : ℕ) : ℝ) ∧
      normalizedGray (gray ((0 : ℕ) : ℝ) ((0 : ℕ) : ℝ) ((0 : ℕ) : ℝ))
        ≤ normalizedGray
          (gray ((255 : ℕ) : ℝ) ((255 : ℕ) : ℝ) ((255 : ℕ) : ℝ)) ∧
      (duotonePixel 0 0 0).1 ≤ (duotonePixel 255 255 255).1 ∧
      (duotonePixel 0 0 0).2.1 ≤ (duotonePixel 255 255 255).2.1 ∧
      (duotonePixel 0 0 0).2.2 ≤ (duotonePixel 255 255 255).2.2 :=
  output_monotone_in_channels 0 0 0 255 255 255 (by decide) (by decide)
    (by decide) (by decide) (by decide) (by decide)

/-- Claim C5: the mapper is not idempotent; on the well-formed one-pixel
black bitmap a second application moves the color again, so map (map b)
differs from map b. -/
theorem mapper_not_idempotent :
    ∃ bm : Bitmap, bm.WellFormed ∧
      applyDuotoneFilter (applyDuotoneFilter bm) ≠ applyDuotoneFilter bm := by
  refine ⟨⟨1, 1, [0, 0, 0, 255]⟩, by decide, ?_⟩
  have hfirst : applyDuotoneFilter ⟨1, 1, [0, 0, 0, 255]⟩ =
      ⟨1, 1, [27, 96, 47, 255]⟩ := by
    unfold applyDuotoneFilter
    rw [duotoneData_quad, duotonePixel_black]
  rw [hfirst]
  intro hc
  have hdata := congrArg Bitmap.data hc
  unfold applyDuotoneFilter at hdata
  rw [duotoneData_quad] at hdata
  simp only [List.cons.injEq] at hdata
  have h41 := duotonePixel_dark_first
  omega

/-- Claim C8: for a well-formed bitmap the mapper carries every alpha byte
(position 4i+3 of the buffer) through unchanged; only R, G, B bytes are
rewritten. -/
theorem alpha_channel_preserved (bm : Bitmap) (_h : bm.WellFormed) (i : ℕ) :
    (applyDuotoneFilter bm).data[4 * i + 3]? = bm.data[4 * i + 3]? :=
  duotoneData_alpha bm.data i

/-- Witness for claim C8 on a concrete one-pixel bitmap. -/
theorem alpha_channel_preserved_witness :
    (applyDuotoneFilter (Bitmap.mk 1 1 [1, 2, 3, 4])).data[4 * 0 + 3]? =
      (Bitmap.mk 1 1 [1, 2, 3, 4]).data[4 * 0 + 3]? :=
  alpha_channel_preserved (Bitmap.mk 1 1 [1, 2, 3, 4]) (by decide) 0

/-- Claim C9: for a well-formed bitmap the output has the same width, the
same height, and a buffer of the same length, hence the same number of
pixels. -/
theorem dimensions_preserved (bm : Bitmap) (_h : bm.WellFormed) :
    (applyDuotoneFilter bm).width = bm.width ∧
      (applyDuotoneFilter bm).height = bm.height ∧
      (applyDuotoneFilter bm).data.length = bm.data.length :=
  ⟨rfl, rfl, duotoneData_length bm.data⟩

/-- Witness for claim C9 on a concrete one-pixel bitmap. -/
theorem dimensions_preserved_witness :
    (applyDuotoneFilter (Bitmap.mk 1 1 [5, 6, 7, 8])).width =
        (Bitmap.mk 1 1 [5, 6, 7, 8]).width ∧
      (applyDuotoneFilter (Bitmap.mk 1 1 [5, 6, 7, 8])).height =
        (Bitmap.mk 1 1 [5, 6, 7, 8]).height ∧
      (applyDuotoneFilter (Bitmap.mk 1 1 [5, 6, 7, 8])).data.length =
        (Bitmap.mk 1 1 [5, 6, 7, 8]).data.length :=
  dimensions_preserved (Bitmap.mk 1 1 [5, 6, 7, 8]) (by decide)

/-- Claim C10: for a well-formed bitmap every output R byte lies in
[27, 247], every output G byte in [96, 132] and every output B byte in
[47, 197]; each channel stays between the dark and the light endpoint. -/
theorem output_within_endpoint_ranges (bm : Bitmap) (h : bm.WellFormed)
    (i : ℕ) :
    (∀ x, (applyDuotoneFilter bm).data[4 * i]? = some x →
        27 ≤ x ∧ x ≤ 247) ∧
      (∀ x, (applyDuotoneFilter bm).data[4 * i + 1]? = some x →
        96 ≤ x ∧ x ≤ 132) ∧
      (∀ x, (applyDuotoneFilter bm).data[4 * i + 2]? = some x →
        47 ≤ x ∧ x ≤ 197) := by
  obtain ⟨hlen, hbytes⟩ := h
  exact duotoneData_bounds bm.data (by omega) hbytes i

/-- Witness for claim C10 on a concrete one-pixel bitmap. -/
theorem output_within_endpoint_ranges_witness :
    (∀ x, (applyDuotoneFilter (Bitmap.mk 1 1 [9, 9, 9, 9])).data[4 * 0]?
        = some x → 27 ≤ x ∧ x ≤ 247) ∧
      (∀ x, (applyDuotoneFilter (Bitmap.mk 1 1 [9, 9, 9, 9])).data[4 * 0 + 1]?
        = some x → 96 ≤ x ∧ x ≤ 132) ∧
      (∀ x, (applyDuotoneFilter (Bitmap.mk 1 1 [9, 9, 9, 9])).data[4 * 0 + 2]?
        = some x → 47 ≤ x ∧ x ≤ 197) :=
  output_within_endpoint_ranges (Bitmap.mk 1 1 [9, 9, 9, 9]) (by decide) 0

end Duotone
